import Mathlib

/-!
Verification of the semantic-protocol repository.

The repository contains two generations of a field-semantics engine:
the first generation in semantic_protocol.py (class SemanticProtocol) and
the second generation in semantic-protocol-v2.py (class SemanticProtocolV2).
This file gives a shallow embedding of both engines and proves or refutes
the frozen claims about them.

Modelling conventions:
- Python scalar values (None, str, int/float, bool) become the inductive
  type Value.  Numbers are rationals; the claims never depend on float
  rounding.  Python treats bool as a numeric subtype, which the embedding
  mirrors in the isinstance checks of the detectors.
- Python dicts become insertion-ordered association lists with unique keys;
  assignment to an existing key replaces the value in place, otherwise the
  pair is appended, exactly as CPython dicts behave.
- A detector that may raise is embedded as a function into Except String.
  The builtin detectors are total and always return Except.ok.
- list.sort with a key function and reverse set is a stable descending
  sort; a stable sort over a total preorder has a uniquely determined
  output, so the embedding computes it with a structural insertion sort
  that is proved stable, sorted and a permutation of its input.
-/

/-- Embedding of the Python scalar values that flow through the engine. -/
inductive Value where
  | none : Value
  | str (s : String) : Value
  | num (q : ℚ) : Value
  | bool (b : Bool) : Value
deriving DecidableEq, Repr

/-- Python str() of a value.  Integral rationals print as integers; a
non-integral rational prints via the Lean rational printer, an adequate
stand-in because no claim inspects the textual form of a fractional
number. -/
def pyStr : Value → String
  | Value.none => "None"
  | Value.str s => s
  | Value.bool true => "True"
  | Value.bool false => "False"
  | Value.num q => if q.den = 1 then toString q.num else toString q

/-- Does the character list needle occur contiguously inside the character
list hay (Python substring membership test, x in s)? -/
def hasSubAux (needle : List Char) : List Char → Bool
  | [] => needle.isEmpty
  | c :: rest => needle.isPrefixOf (c :: rest) || hasSubAux needle rest

/-- Python substring test: needle in hay. -/
def strHas (hay needle : String) : Bool := hasSubAux needle.data hay.data

/-- Python str.endswith. -/
def strEnds (hay suf : String) : Bool := suf.data.isSuffixOf hay.data

/-- Python str.startswith. -/
def strStarts (hay pre : String) : Bool := pre.data.isPrefixOf hay.data

/-- Python str.lower, mapping each character; written structurally so that
the kernel can evaluate it on literals. -/
def strLower (s : String) : String := String.mk (s.data.map Char.toLower)

/-- The exact rational denoted by a Python decimal literal with two digits
after the point: pydec 95 stands for the source decimal literal with the
digits nine five after the point.  The Python
code only ever compares these values with each other and with zero, so the
exact-rational reading is adequate. -/
def pydec (n : Int) : ℚ := mkRat n 100

/-- Decidable equality of embedded fallible computations, used to state
concrete evaluations of analyze. -/
instance {ε α : Type} [DecidableEq ε] [DecidableEq α] : DecidableEq (Except ε α) :=
  fun a b =>
    match a, b with
    | Except.ok x, Except.ok y =>
        match decEq x y with
        | isTrue h => isTrue (h ▸ rfl)
        | isFalse h => isFalse (fun hh => h (Except.ok.inj hh))
    | Except.error x, Except.error y =>
        match decEq x y with
        | isTrue h => isTrue (h ▸ rfl)
        | isFalse h => isFalse (fun hh => h (Except.error.inj hh))
    | Except.ok _, Except.error _ => isFalse (fun hh => Except.noConfusion hh)
    | Except.error _, Except.ok _ => isFalse (fun hh => Except.noConfusion hh)

/-- Lookup in an association list modelling a Python dict. -/
def dictGet? {α : Type} : List (String × α) → String → Option α
  | [], _ => Option.none
  | (k, v) :: rest, key => if k = key then some v else dictGet? rest key

/-- Python dict assignment d[k] = v: replace in place when the key is
present, otherwise append, preserving insertion order. -/
def dictInsert {α : Type} : List (String × α) → String → α → List (String × α)
  | [], k, v => [(k, v)]
  | (k', v') :: rest, k, v =>
      if k' = k then (k, v) :: rest else (k', v') :: dictInsert rest k v

/-- Python field.get(key, default) on a dict of values. -/
def pyGetD (f : List (String × Value)) (k : String) (d : Value) : Value :=
  (dictGet? f k).getD d

/-- Stable insertion of one element into a list sorted by the Boolean
relation le: the element goes in front of the first entry it is le-related
to, hence before later-inserted equals. -/
def stableInsert {α : Type} (le : α → α → Bool) (a : α) : List α → List α
  | [] => [a]
  | b :: l => if le a b then a :: b :: l else b :: stableInsert le a l

/-- Stable sort by the Boolean relation le.  For a total preorder this
computes the same list as any stable sort, in particular as Python
list.sort with a key function. -/
def stableSortBy {α : Type} (le : α → α → Bool) : List α → List α
  | [] => []
  | a :: l => stableInsert le a (stableSortBy le l)

-- ===========================================================================
-- First-generation engine: semantic_protocol.py, class SemanticProtocol
-- ===========================================================================

namespace V1

/-- The field dict built at the top of SemanticProtocol.analyze from the
three arguments name, type and value. -/
structure Field where
  name : String
  type : String
  value : Value
deriving DecidableEq, Repr

/-- Detector _is_cancellation. -/
def isCancellation (f : Field) : ℚ :=
  let name := strLower f.name
  if ["cancel", "terminate", "expire", "revoke", "void", "delete"].any
      (fun kw => strHas name kw) then pydec 95
  else if f.type = "boolean" && strHas name "is_" &&
      ["inactive", "disabled"].any (fun kw => strHas name kw) then pydec 85
  else 0

/-- Detector _is_currency. -/
def isCurrency (f : Field) : ℚ :=
  let name := strLower f.name
  let ty := strLower f.type
  if ty ∈ ["decimal", "money", "currency"] then pydec 95
  else if ["price", "amount", "balance", "cost", "fee", "payment", "salary",
      "revenue"].any (fun w => strHas name w) then pydec 90
  else if ty ∈ ["float", "double", "number"] &&
      ["usd", "eur", "gbp"].any (fun w => strHas name w) then pydec 85
  else 0

/-- Detector _is_temporal. -/
def isTemporal (f : Field) : ℚ :=
  let name := strLower f.name
  let ty := strLower f.type
  if ty ∈ ["timestamp", "datetime", "date", "time"] then pydec 95
  else if strEnds name "_at" || strEnds name "_on" then pydec 90
  else if ["created", "updated", "modified", "deleted", "last_", "next_"].any
      (fun w => strHas name w) then pydec 85
  else 0

/-- Detector _is_premium. -/
def isPremium (f : Field) : ℚ :=
  let name := strLower f.name
  if ["premium", "pro", "vip", "gold", "platinum", "elite", "plus"].any
      (fun w => strHas name w) then pydec 90
  else if strHas name "tier" &&
      (f.value = Value.str "premium" || f.value = Value.str "pro" ||
       f.value = Value.str "gold") then pydec 85
  else 0

/-- Detector _is_identifier. -/
def isIdentifier (f : Field) : ℚ :=
  let name := strLower f.name
  if name ∈ ["id", "uid", "uuid", "guid"] then pydec 95
  else if strEnds name "_id" || strEnds name "_key" then pydec 90
  else if strHas name "identifier" || strHas name "reference" then pydec 85
  else 0

/-- Detector _is_status. -/
def isStatus (f : Field) : ℚ :=
  let name := strLower f.name
  if strHas name "status" || strHas name "state" then pydec 95
  else if name ∈ ["active", "enabled", "visible", "published"] then pydec 85
  else if f.type = "enum" && name ∈ ["type", "kind", "category"] then pydec 80
  else 0

/-- Detector _is_percentage. -/
def isPercentage (f : Field) : ℚ :=
  let name := strLower f.name
  if strHas name "percent" || strHas name "pct" || strEnds name "_rate" then pydec 95
  else if strHas name "ratio" || strHas name "factor" then pydec 85
  else
    match f.value with
    | Value.num q => if 0 ≤ q && q ≤ 1 then pydec 70 else 0
    | Value.bool _ => pydec 70
    | _ => 0

/-- Detector _is_email. -/
def isEmail (f : Field) : ℚ :=
  let name := strLower f.name
  if strHas name "email" || strHas name "mail" then pydec 95
  else
    match f.value with
    | Value.str s => if strHas s "@" && strHas s "." then pydec 90 else 0
    | _ => 0

/-- Detector _is_url. -/
def isUrl (f : Field) : ℚ :=
  let name := strLower f.name
  if strHas name "url" || strHas name "link" || strHas name "website" then pydec 95
  else
    match f.value with
    | Value.str s => if strStarts s "http" || strStarts s "www" then pydec 90 else 0
    | _ => 0

/-- Detector _is_danger. -/
def isDanger (f : Field) : ℚ :=
  let name := strLower f.name
  if ["error", "fail", "critical", "severe", "fatal", "emergency", "breach"].any
      (fun w => strHas name w) then pydec 90
  else if f.type = "boolean" && strHas name "is_" &&
      ["blocked", "banned", "suspended"].any (fun w => strHas name w) then pydec 85
  else 0

/-- The semantic_rules dict of SemanticProtocol, in literal order. -/
def semanticRules : List (String × (Field → ℚ)) :=
  [("cancellation", isCancellation),
   ("currency", isCurrency),
   ("temporal", isTemporal),
   ("premium", isPremium),
   ("identifier", isIdentifier),
   ("status", isStatus),
   ("percentage", isPercentage),
   ("email", isEmail),
   ("url", isUrl),
   ("danger", isDanger)]

/-- The render_map dict of SemanticProtocol, keyed by semantic type and
context, in literal order. -/
def renderMap : List ((String × String) × String) :=
  [(("cancellation", "list"), "badge:danger"),
   (("cancellation", "detail"), "alert:warning"),
   (("cancellation", "form"), "toggle:danger"),
   (("cancellation", "timeline"), "event:critical"),
   (("currency", "list"), "text:currency-compact"),
   (("currency", "detail"), "text:currency-full"),
   (("currency", "form"), "input:currency"),
   (("currency", "timeline"), "chart:financial"),
   (("temporal", "list"), "text:relative-time"),
   (("temporal", "detail"), "text:absolute-datetime"),
   (("temporal", "form"), "input:datepicker"),
   (("temporal", "timeline"), "marker:timestamp"),
   (("premium", "list"), "badge:gold"),
   (("premium", "detail"), "card:elevated"),
   (("premium", "form"), "toggle:premium"),
   (("status", "list"), "badge:status"),
   (("status", "detail"), "card:status"),
   (("status", "form"), "select:status"),
   (("identifier", "list"), "text:monospace"),
   (("identifier", "detail"), "text:copyable"),
   (("identifier", "form"), "input:readonly"),
   (("percentage", "list"), "progress:compact"),
   (("percentage", "detail"), "progress:detailed"),
   (("percentage", "form"), "slider:percentage"),
   (("email", "list"), "link:email"),
   (("email", "detail"), "link:email-full"),
   (("email", "form"), "input:email"),
   (("url", "list"), "link:external"),
   (("url", "detail"), "link:preview"),
   (("url", "form"), "input:url"),
   (("danger", "list"), "badge:danger"),
   (("danger", "detail"), "alert:danger"),
   (("danger", "form"), "warning:inline")]

/-- Lookup in the pair-keyed render map (dict.get with default). -/
def renderLookup : List ((String × String) × String) → String × String → Option String
  | [], _ => Option.none
  | (k, v) :: rest, key => if k = key then some v else renderLookup rest key

/-- The metadata dict assembled by SemanticProtocol.analyze. -/
structure Metadata where
  field : String
  type : String
  context : String
  all_matches : List (String × ℚ)
deriving DecidableEq, Repr

/-- The SemanticResult dataclass. -/
structure SemanticResult where
  semantic_type : String
  render_instruction : String
  confidence : ℚ
  metadata : Metadata
deriving DecidableEq, Repr

/-- SemanticProtocol.analyze: score every rule, keep the strictly best
match in iteration order, look up the render instruction for the pair of
winning type and context, and assemble the metadata with every strictly
positive score. -/
def analyze (field_name field_type : String) (field_value : Value)
    (context : String) : SemanticResult :=
  let field : Field := ⟨field_name, field_type, field_value⟩
  let best := semanticRules.foldl
    (fun best rule =>
      let confidence := rule.2 field
      if best.2 < confidence then (rule.1, confidence) else best)
    ("default", (0 : ℚ))
  let render_instruction := (renderLookup renderMap (best.1, context)).getD "text:plain"
  let all_matches := semanticRules.foldl
    (fun acc rule =>
      let conf := rule.2 field
      if 0 < conf then dictInsert acc rule.1 conf else acc)
    []
  { semantic_type := best.1
    render_instruction := render_instruction
    confidence := if 0 < best.2 then best.2 else 1
    metadata := ⟨field_name, field_type, context, all_matches⟩ }

/-- One element of the list handed to batch_analyze: either a dict with
optional name, type and value entries, or an arbitrary non-dict object
carried by its str() image.  Name and type entries are kept as strings
because a dict with a non-string name or type makes the Python detectors
raise inside lower(); batch_analyze is only defined on these inputs. -/
inductive BatchItem where
  | dict (name : Option String) (type : Option String) (value : Value) : BatchItem
  | other (s : String) : BatchItem
deriving DecidableEq, Repr

/-- The name key batch_analyze extracts from one item: the name entry with
default unknown for a dict, str() of the object otherwise. -/
def itemName : BatchItem → String
  | BatchItem.dict n _ _ => n.getD "unknown"
  | BatchItem.other s => s

/-- The analyze call batch_analyze performs for one item. -/
def itemAnalyze (it : BatchItem) (context : String) : SemanticResult :=
  match it with
  | BatchItem.dict _ t v => analyze (itemName it) (t.getD "string") v context
  | BatchItem.other s => analyze s "string" Value.none context

/-- SemanticProtocol.batch_analyze: an insertion-ordered results dict
built by assigning each analysis under its field name. -/
def batch_analyze (fields : List BatchItem) (context : String) :
    List (String × SemanticResult) :=
  fields.foldl
    (fun results it => dictInsert results (itemName it) (itemAnalyze it context))
    []

end V1

-- ===========================================================================
-- Second-generation engine: semantic-protocol-v2.py, class SemanticProtocolV2
-- ===========================================================================

namespace V2

/-- A v2 field is a Python dict with string keys (field_name, field_type,
field_value); the engine reads it only through dict.get. -/
def FieldDict := List (String × Value)
deriving DecidableEq, Repr

/-- A detector may raise, which the embedding renders as Except.error; the
builtin detectors are total and always return Except.ok. -/
def Detector := FieldDict → Except String ℚ

/-- One entry of the semantic_rules or custom_rules dict. -/
structure RuleDef where
  priority : Int
  detector : Detector

/-- Numeric reading of a value under Python isinstance checks against int
and float: bool is a subtype of int in Python, so True reads as one and
False as zero. -/
def numVal : Value → Option ℚ
  | Value.num q => some q
  | Value.bool b => some (if b then 1 else 0)
  | _ => Option.none

/-- Python membership of a value in the literal list with entries 0, 1 and
the six strings 0, 1, true, false, yes, no, under Python equality: a bool
equals the matching int. -/
def inBoolLits : Value → Bool
  | Value.num q => q == 0 || q == 1
  | Value.str s => s ∈ ["0", "1", "true", "false", "yes", "no"]
  | Value.bool _ => true
  | Value.none => false

/-- Is the value a string of one of the given lengths (common identifier
lengths in _detect_identifier)? -/
def isStrLen (v : Value) (ls : List Nat) : Bool :=
  match v with
  | Value.str s => s.length ∈ ls
  | _ => false

/-- The prefix test of re.match for the ISO date pattern of four digits,
a dash, two digits, a dash and two digits. -/
def isoHit (s : String) : Bool :=
  match s.data with
  | a :: b :: c :: d :: e :: f :: g :: h :: i :: j :: _ =>
      a.isDigit && b.isDigit && c.isDigit && d.isDigit && e == '-' &&
      f.isDigit && g.isDigit && h == '-' && i.isDigit && j.isDigit
  | _ => false

/-- Character class of the local part of the email pattern. -/
def emailLocalClass (c : Char) : Bool :=
  c.isAlpha || c.isDigit || c == '.' || c == '_' || c == '%' || c == '+' || c == '-'

/-- Character class of the domain part of the email pattern. -/
def emailDomClass (c : Char) : Bool :=
  c.isAlpha || c.isDigit || c == '.' || c == '-'

/-- Full match of the domain tail of the email pattern: one or more domain
characters, a dot, then at least two letters running to the end.  The
existential over the split position realises the backtracking of the
regular expression engine. -/
def emailDomHit (cs : List Char) : Bool :=
  (List.range cs.length).any fun j =>
    cs.getD j ' ' == '.' && decide (0 < j) && (cs.take j).all emailDomClass &&
    decide (2 ≤ (cs.drop (j + 1)).length) && (cs.drop (j + 1)).all Char.isAlpha

/-- Full match of the anchored email pattern: one or more local characters,
an at sign, then the domain tail.  Only the first at sign can split the
string because the local class excludes the at sign. -/
def emailHit (s : String) : Bool :=
  let cs := s.data
  (List.range cs.length).any fun i =>
    cs.getD i ' ' == '@' && decide (0 < i) && (cs.take i).all emailLocalClass &&
    emailDomHit (cs.drop (i + 1))

/-- Prefix match of the url pattern: one or more domain characters, a dot,
then at least two letters (re.match, so the rest of the string is free). -/
def urlHit (s : String) : Bool :=
  let cs := s.data
  (List.range cs.length).any fun i =>
    cs.getD i ' ' == '.' && decide (0 < i) && (cs.take i).all emailDomClass &&
    (match cs.drop (i + 1) with
     | a :: b :: _ => a.isAlpha && b.isAlpha
     | _ => false)

/-- Full match of one coordinate of the coordinate pattern: an optional
minus sign, one or more digits, an optional dot, then optional digits. -/
def numChunk (cs : List Char) : Bool :=
  let cs2 := if cs.head? == some '-' then cs.tail else cs
  match cs2 with
  | [] => false
  | c :: _ =>
      c.isDigit && cs2.all (fun x => x.isDigit || x == '.') &&
      decide ((cs2.filter (fun x => x == '.')).length ≤ 1)

/-- Full match of the coordinate pattern: two coordinates separated by a
comma.  Only one comma position can succeed because a coordinate never
contains a comma. -/
def coordsHit (s : String) : Bool :=
  let cs := s.data
  (List.range cs.length).any fun i =>
    cs.getD i ' ' == ',' && numChunk (cs.take i) && numChunk (cs.drop (i + 1))

/-- Split a character list at the first exponent marker e or E. -/
def splitAtExp : List Char → List Char × Option (List Char)
  | [] => ([], Option.none)
  | c :: rest =>
      if c == 'e' || c == 'E' then ([], some rest)
      else
        let r := splitAtExp rest
        (c :: r.1, r.2)

/-- Mantissa of the float grammar: at least one digit, only digits and at
most one dot. -/
def mantissaOk (cs : List Char) : Bool :=
  cs.any Char.isDigit && cs.all (fun c => c.isDigit || c == '.') &&
  decide ((cs.filter (fun c => c == '.')).length ≤ 1)

/-- Exponent of the float grammar: an optional sign then at least one
digit. -/
def expOk (cs : List Char) : Bool :=
  let cs2 := if cs.head? == some '+' || cs.head? == some '-' then cs.tail else cs
  !cs2.isEmpty && cs2.all Char.isDigit

/-- Does Python float() accept the string (_detect_numeric only asks for
acceptance, the parsed value is discarded)?  Modelled on the core float
grammar: surrounding whitespace, an optional sign, then a mantissa with
optional exponent, or one of the words inf, infinity, nan.  Digit-group
underscores are omitted; no claim touches them. -/
def pyFloatOk (s : String) : Bool :=
  let cs := (s.data.dropWhile Char.isWhitespace).reverse.dropWhile Char.isWhitespace |>.reverse
  let cs := if cs.head? == some '+' || cs.head? == some '-' then cs.tail else cs
  let lowered := String.mk (cs.map Char.toLower)
  lowered ∈ ["inf", "infinity", "nan"] ||
  (let p := splitAtExp cs
   mantissaOk p.1 &&
   (match p.2 with
    | Option.none => true
    | some ex => expOk ex))

/-- The field name string every v2 detector starts from: str of the
field_name entry with default empty string, lowered. -/
def fName (f : FieldDict) : String := strLower (pyStr (pyGetD f "field_name" (Value.str "")))

/-- The raw field_value entry (dict.get with default None). -/
def fValue (f : FieldDict) : Value := pyGetD f "field_value" Value.none

/-- str of the field_value entry with default empty string. -/
def fValueStr (f : FieldDict) : String := pyStr (pyGetD f "field_value" (Value.str ""))

/-- Detector _detect_identifier.  The confidence accumulator is a Python
int; every arithmetic step stays in Int and only the final result is read
as a rational. -/
def detectIdentifier (f : FieldDict) : Int :=
  let name := fName f
  let value := fValue f
  let c1 : Int := if ["id", "uuid", "guid", "key", "code", "sku"].any (fun x => strHas name x) then 70 else 0
  let c2 := c1 + (if strHas name "_id" || strEnds name "id" then 20 else 0)
  let c3 := c2 + (if isStrLen value [8, 16, 32, 36] then 10 else 0)
  min c3 95

/-- Detector _detect_temporal. -/
def detectTemporal (f : FieldDict) : Int :=
  let name := fName f
  let value := fValue f
  let c1 : Int := if ["date", "time", "timestamp", "created", "updated", "expired",
      "deadline", "schedule", "when", "year", "month", "day", "hour", "minute"].any
      (fun k => strHas name k) then 60 else 0
  let c2 := c1 + (if ["_at", "_on"].any (fun x => strHas name x) then 30 else 0)
  let c3 := c2 + (match value with
    | Value.str s => if isoHit s then 20 else 0
    | _ => 0)
  min c3 95

/-- Detector _detect_email. -/
def detectEmail (f : FieldDict) : Int :=
  let name := fName f
  let value := fValueStr f
  let c1 : Int := if ["email", "e-mail", "mail"].any (fun x => strHas name x) then 70 else 0
  let c2 := c1 + (if emailHit value then 30 else 0)
  min c2 95

/-- Detector _detect_url. -/
def detectUrl (f : FieldDict) : Int :=
  let name := fName f
  let value := fValueStr f
  let c1 : Int := if ["url", "link", "website", "site", "href"].any (fun x => strHas name x) then 60 else 0
  let c2 := c1 +
    (if strStarts value "http://" || strStarts value "https://" || strStarts value "www." then 40
     else if urlHit value then 20 else 0)
  min c2 95

/-- Detector _detect_phone.  The cleaned value drops whitespace and the
separator characters of the substituted character class. -/
def detectPhone (f : FieldDict) : Int :=
  let name := fName f
  let value := fValueStr f
  let c1 : Int := if ["phone", "mobile", "cell", "tel", "fax"].any (fun x => strHas name x) then 70 else 0
  let cleaned := value.data.filter
    (fun c => !(c.isWhitespace || c == '-' || c == '(' || c == ')' || c == '+' || c == '.'))
  let c2 := c1 +
    (if !cleaned.isEmpty && cleaned.all Char.isDigit &&
        7 ≤ cleaned.length && cleaned.length ≤ 15 then 30 else 0)
  min c2 95

/-- Detector _detect_currency. -/
def detectCurrency (f : FieldDict) : Int :=
  let name := fName f
  let value := fValue f
  let c1 : Int := if ["price", "cost", "amount", "fee", "charge", "payment", "balance",
      "total", "subtotal", "tax", "discount", "revenue", "profit", "salary", "wage",
      "budget"].any (fun k => strHas name k) then 70 else 0
  let c2 := c1 + (match numVal value with
    | some q => if 0 < q then 20 else 0
    | Option.none => 0)
  let c3 := c2 +
    (if strHas (pyStr value) "$" || ["usd", "eur", "gbp"].any (fun cur => strHas name cur)
     then 10 else 0)
  min c3 95

/-- Detector _detect_percentage. -/
def detectPercentage (f : FieldDict) : Int :=
  let name := fName f
  let value := fValue f
  let c1 : Int := if ["percent", "rate", "ratio", "coverage", "utilization"].any
      (fun x => strHas name x) then 60 else 0
  let c2 := c1 + (match numVal value with
    | some q => if 0 ≤ q && q ≤ 100 then 30 else 0
    | Option.none => 0)
  let c3 := c2 + (if strHas (pyStr value) "%" then 10 else 0)
  min c3 90

/-- Detector _detect_status. -/
def detectStatus (f : FieldDict) : Int :=
  let name := fName f
  let value := strLower (fValueStr f)
  let c1 : Int := if ["status", "state", "phase", "stage"].any (fun x => strHas name x) then 70 else 0
  let c2 := c1 +
    (if value ∈ ["active", "inactive", "pending", "completed", "failed", "success",
        "error", "warning", "approved", "rejected", "draft", "published", "archived"]
     then 25 else 0)
  min c2 95

/-- Detector _detect_boolean. -/
def detectBoolean (f : FieldDict) : Int :=
  let name := fName f
  let value := fValue f
  let c1 : Int := if ["is_", "has_", "can_", "should_", "will_", "was_"].any
      (fun p => strStarts name p) then 80 else 0
  let c2 := c1 + (match value with
    | Value.bool _ => 20
    | v => if inBoolLits v then 15 else 0)
  min c2 95

/-- Detector _detect_numeric: sixty for a numeric value (bools included,
as in Python), fifty when float() accepts str of the value, else zero. -/
def detectNumeric (f : FieldDict) : Int :=
  let value := fValue f
  match numVal value with
  | some _ => 60
  | Option.none => if pyFloatOk (pyStr value) then 50 else 0

/-- Detector _detect_location. -/
def detectLocation (f : FieldDict) : Int :=
  let name := fName f
  let value := fValueStr f
  let c1 : Int := if ["address", "location", "city", "state", "country", "zip", "postal",
      "latitude", "longitude", "coords", "region", "area", "place", "venue", "geo"].any
      (fun k => strHas name k) then 70 else 0
  let c2 := c1 + (if coordsHit value then 30 else 0)
  min c2 95

/-- Detector _detect_cancellation. -/
def detectCancellation (f : FieldDict) : Int :=
  let name := fName f
  let c1 : Int := if ["cancel", "void", "revoke", "terminate", "expire"].any
      (fun x => strHas name x) then 75 else 0
  let c2 := c1 + (if ["deleted", "removed", "disabled"].any (fun x => strHas name x) then 60 else 0)
  min c2 90

/-- Detector _detect_description. -/
def detectDescription (f : FieldDict) : Int :=
  let name := fName f
  let value := fValue f
  let c1 : Int := if ["description", "summary", "note", "comment", "detail"].any
      (fun x => strHas name x) then 70 else 0
  let c2 := c1 + (match value with
    | Value.str s => if 100 < s.length then 20 else 0
    | _ => 0)
  min c2 85

/-- Detector _detect_keyword. -/
def detectKeyword (f : FieldDict) : Int :=
  let name := fName f
  let c1 : Int := if ["tag", "label", "category", "type", "kind", "class"].any
      (fun x => strHas name x) then 70 else 0
  min c1 85

/-- Wrap a total Python-int detector as a registry detector. -/
def intDet (d : FieldDict → Int) : Detector := fun f => Except.ok ((d f : Int) : ℚ)

/-- The builtin semantic_rules dict, in literal order with its literal
priorities. -/
def semanticRules : List (String × RuleDef) :=
  [("_is_identifier", ⟨50, intDet detectIdentifier⟩),
   ("_is_temporal", ⟨60, intDet detectTemporal⟩),
   ("_is_email", ⟨90, intDet detectEmail⟩),
   ("_is_url", ⟨85, intDet detectUrl⟩),
   ("_is_phone", ⟨85, intDet detectPhone⟩),
   ("_is_currency", ⟨80, intDet detectCurrency⟩),
   ("_is_percentage", ⟨70, intDet detectPercentage⟩),
   ("_is_status", ⟨65, intDet detectStatus⟩),
   ("_is_boolean", ⟨75, intDet detectBoolean⟩),
   ("_is_numeric", ⟨40, intDet detectNumeric⟩),
   ("_is_location", ⟨70, intDet detectLocation⟩),
   ("_is_cancellation", ⟨55, intDet detectCancellation⟩),
   ("_is_description", ⟨30, intDet detectDescription⟩),
   ("_is_keyword", ⟨35, intDet detectKeyword⟩)]

/-- A render directive: component name plus property bag. -/
structure Directive where
  component : String
  props : List (String × Value)
deriving DecidableEq, Repr

/-- The builtin render_map dict, in literal order. -/
def renderMapInit : List (String × Directive) :=
  [("_is_identifier", ⟨"Badge", [("variant", Value.str "outline"), ("copyable", Value.bool true)]⟩),
   ("_is_temporal", ⟨"DateTime", [("format", Value.str "relative"), ("calendar", Value.bool true)]⟩),
   ("_is_email", ⟨"Link", [("type", Value.str "email"), ("icon", Value.str "mail")]⟩),
   ("_is_url", ⟨"Link", [("type", Value.str "url"), ("external", Value.bool true)]⟩),
   ("_is_phone", ⟨"Link", [("type", Value.str "tel"), ("icon", Value.str "phone")]⟩),
   ("_is_currency", ⟨"Currency", [("showSymbol", Value.bool true), ("precision", Value.num 2)]⟩),
   ("_is_percentage", ⟨"Progress", [("showValue", Value.bool true), ("variant", Value.str "circular")]⟩),
   ("_is_status", ⟨"StatusBadge", [("animated", Value.bool true)]⟩),
   ("_is_boolean", ⟨"Toggle", [("readOnly", Value.bool true)]⟩),
   ("_is_numeric", ⟨"Number", [("thousandsSeparator", Value.bool true)]⟩),
   ("_is_location", ⟨"Location", [("showMap", Value.bool true), ("icon", Value.str "pin")]⟩),
   ("_is_cancellation", ⟨"Alert", [("variant", Value.str "warning"), ("icon", Value.str "alert-triangle")]⟩),
   ("_is_description", ⟨"Text", [("expandable", Value.bool true), ("maxLines", Value.num 3)]⟩),
   ("_is_keyword", ⟨"Tag", [("size", Value.str "small")]⟩)]

/-- The mutable state of one SemanticProtocolV2 instance. -/
structure Protocol where
  semantic_rules : List (String × RuleDef)
  custom_rules : List (String × RuleDef)
  render_map : List (String × Directive)

/-- A freshly constructed SemanticProtocolV2. -/
def initProtocol : Protocol := ⟨semanticRules, [], renderMapInit⟩

/-- SemanticProtocolV2.register_rule: plain dict assignment into
custom_rules, no validation of the key. -/
def register_rule (p : Protocol) (name : String) (detector : Detector) (priority : Int) : Protocol :=
  { p with custom_rules := dictInsert p.custom_rules name ⟨priority, detector⟩ }

/-- SemanticProtocolV2.register_render: plain dict assignment into
render_map. -/
def register_render (p : Protocol) (semantic_type : String) (component : String)
    (props : List (String × Value)) : Protocol :=
  { p with render_map := dictInsert p.render_map semantic_type ⟨component, props⟩ }

/-- The merged dict of core and custom rules built at the top of analyze:
core entries first, custom entries override by key or append. -/
def allRules (p : Protocol) : List (String × RuleDef) :=
  p.custom_rules.foldl (fun acc kv => dictInsert acc kv.1 kv.2) p.semantic_rules

/-- One scored match. -/
structure Match where
  semantic_type : String
  confidence : ℚ
  priority : Int
deriving DecidableEq, Repr

/-- The scoring loop of analyze: call each detector in registry order and
keep the matches at or above the threshold.  A raising detector aborts the
loop exactly as an uncaught Python exception aborts the for loop. -/
def scoreLoop (rules : List (String × RuleDef)) (f : FieldDict) (threshold : ℚ) :
    Except String (List Match) :=
  match rules with
  | [] => Except.ok []
  | (name, rd) :: rest => do
      let confidence ← rd.detector f
      let ms ← scoreLoop rest f threshold
      if threshold ≤ confidence then
        pure (⟨name, confidence, rd.priority⟩ :: ms)
      else
        pure ms

/-- The sort key order of analyze: descending lexicographic comparison of
the pair of confidence and priority, as produced by list.sort with that
key and reverse set. -/
def matchLE (a b : Match) : Bool :=
  decide (b.confidence < a.confidence) ||
  (decide (a.confidence = b.confidence) && decide (b.priority ≤ a.priority))

/-- The metadata block of an analyze result: the sorted kept matches plus
the threshold used. -/
structure Metadata where
  all_matches : List Match
  threshold : ℚ
deriving DecidableEq, Repr

/-- The result dict of analyze.  The basic form carries only the two keys
semantic_type and confidence (the early return for a falsy field and the
no-match return); the single form adds context and metadata; the multi
form is the dict with the plural keys and the extra multi_semantic flag,
which the constructor identity records. -/
inductive AnalyzeResult where
  | basic (semantic_type : Option String) (confidence : ℚ) : AnalyzeResult
  | single (semantic_type : String) (confidence : ℚ) (context : String)
      (metadata : Metadata) : AnalyzeResult
  | multi (semantic_types : List String) (confidences : List ℚ) (context : String)
      (metadata : Metadata) : AnalyzeResult
deriving DecidableEq, Repr

/-- Python list slicing l[:n] for an int n, clamping at both ends and
counting from the other end when n is negative. -/
def pyTake {α : Type} (n : Int) (l : List α) : List α :=
  if 0 ≤ n then l.take n.toNat else l.take (l.length + n).toNat

/-- SemanticProtocolV2.analyze. -/
def analyze (p : Protocol) (field : FieldDict) (context : String) (threshold : ℚ)
    (max_semantics : Int) : Except String AnalyzeResult :=
  if List.isEmpty field then Except.ok (AnalyzeResult.basic Option.none 0)
  else do
    let ms ← scoreLoop (allRules p) field threshold
    let sortedMatches := stableSortBy matchLE ms
    if max_semantics = 1 then
      match sortedMatches with
      | best :: _ =>
          pure (AnalyzeResult.single best.semantic_type best.confidence context
            ⟨sortedMatches, threshold⟩)
      | [] => pure (AnalyzeResult.basic Option.none 0)
    else
      let selected := pyTake max_semantics sortedMatches
      pure (AnalyzeResult.multi (selected.map (fun m => m.semantic_type))
        (selected.map (fun m => m.confidence)) context ⟨sortedMatches, threshold⟩)

/-- result.get of the semantic_type key: absent on the multi form. -/
def semanticTypeOf : AnalyzeResult → Option String
  | AnalyzeResult.basic st _ => st
  | AnalyzeResult.single st _ _ _ => some st
  | AnalyzeResult.multi _ _ _ _ => Option.none

/-- SemanticProtocolV2.identify: analyze with the defaults and extract the
semantic_type entry. -/
def identify (p : Protocol) (field : FieldDict) (threshold : ℚ) :
    Except String (Option String) :=
  (analyze p field "display" threshold 1).map semanticTypeOf

/-- The default render directive of SemanticProtocolV2.render. -/
def defaultDirective : Directive := ⟨"Text", []⟩

/-- SemanticProtocolV2.render: analyze with the default threshold and
single match, then look the winning type up in render_map; a missing or
falsy (empty) type and a missing map entry both fall back to the default
directive. -/
def render (p : Protocol) (field : FieldDict) (context : String) :
    Except String Directive := do
  let result ← analyze p field context 50 1
  match semanticTypeOf result with
  | some st =>
      if st ≠ "" then
        match dictGet? p.render_map st with
        | some d => pure d
        | Option.none => pure defaultDirective
      else
        pure defaultDirective
  | Option.none => pure defaultDirective

end V2

-- ===========================================================================
-- Derived notions used by the statements
-- ===========================================================================

namespace V2

/-- The metadata entry of a result dict, when the key is present. -/
def metadataOf : AnalyzeResult → Option Metadata
  | AnalyzeResult.basic _ _ => Option.none
  | AnalyzeResult.single _ _ _ md => some md
  | AnalyzeResult.multi _ _ _ md => some md

/-- The context entry of a result dict, when the key is present. -/
def contextOf : AnalyzeResult → Option String
  | AnalyzeResult.basic _ _ => Option.none
  | AnalyzeResult.single _ _ ctx _ => some ctx
  | AnalyzeResult.multi _ _ ctx _ => some ctx

/-- Every confidence number appearing in a result dict: the winning or
selected confidences together with the confidences inside the metadata
match list. -/
def allConfidences : AnalyzeResult → List ℚ
  | AnalyzeResult.basic _ c => [c]
  | AnalyzeResult.single _ c _ md => c :: md.all_matches.map (fun m => m.confidence)
  | AnalyzeResult.multi _ cs _ md => cs ++ md.all_matches.map (fun m => m.confidence)

/-- The ranking order the spec asks of the match list: confidence strictly
descending, equal confidences ordered by priority descending. -/
def rankGE (a b : Match) : Prop :=
  b.confidence < a.confidence ∨
  (a.confidence = b.confidence ∧ b.priority ≤ a.priority)

/-- The value a detector delivered on a field; only meaningful where the
detector is known to have succeeded, and used to state which scores the
scoring loop saw. -/
def confOf (f : FieldDict) (r : String × RuleDef) : ℚ :=
  match r.2.detector f with
  | Except.ok c => c
  | Except.error _ => 0

/-- The unfiltered score list: one match per registered rule, in registry
order, carrying the raw detector value. -/
def rawMatches (rules : List (String × RuleDef)) (f : FieldDict) : List Match :=
  rules.map (fun r => ⟨r.1, confOf f r, r.2.priority⟩)

/-- Decidable statement that every registered detector succeeds on the
field with a confidence strictly below the bound. -/
def scoresBelow (rules : List (String × RuleDef)) (f : FieldDict) (t : ℚ) : Bool :=
  rules.all fun r =>
    match r.2.detector f with
    | Except.ok c => decide (c < t)
    | Except.error _ => false

/-- The match list a result carries: the metadata match list when the
metadata key is present, the empty list for the basic no-match and
empty-field results. -/
def keptMatches (r : AnalyzeResult) : List Match :=
  match metadataOf r with
  | some md => md.all_matches
  | Option.none => []

/-- Decidable statement that some registered detector raises on the
field. -/
def anyRaises (rules : List (String × RuleDef)) (f : FieldDict) : Bool :=
  rules.any fun r =>
    match r.2.detector f with
    | Except.error _ => true
    | Except.ok _ => false

/-- A detector reporting a constant confidence of ninety. -/
def ninetyDet : Detector := fun _ => Except.ok 90

/-- A two-rule registry holding only a priority-fifty identifier rule and
a priority-ninety email rule with the given detectors, in the iteration
order of the builtin registry (identifier first). -/
def twoRuleProtocol (dI dE : Detector) : Protocol :=
  ⟨[("_is_identifier", ⟨50, dI⟩), ("_is_email", ⟨90, dE⟩)], [], []⟩

/-- A custom detector that always raises. -/
def raisingDet : Detector := fun _ => Except.error "boom"

/-- A custom detector that always reports one hundred fifty, outside the
claimed confidence interval. -/
def overDet : Detector := fun _ => Except.ok 150

/-- A custom detector that always reports zero. -/
def zeroDet : Detector := fun _ => Except.ok 0

/-- A field dict whose name triggers the email rule at ninety five and the
location rule at seventy, and no other rule at or above fifty. -/
def emailField : FieldDict :=
  [("field_name", Value.str "email_address"), ("field_value", Value.str "user@example.com")]

/-- A field dict that no builtin rule scores above zero. -/
def blankField : FieldDict := [("field_name", Value.str "zzz")]

end V2

-- ===========================================================================
-- General lemmas about the shared helpers
-- ===========================================================================

theorem stableInsert_perm {α : Type} (le : α → α → Bool) (a : α) (l : List α) :
    List.Perm (stableInsert le a l) (a :: l) := by
  induction l with
  | nil => exact List.Perm.refl _
  | cons b l ih =>
      by_cases h : le a b = true
      · simp [stableInsert, h]
      · have h2 : le a b = false := Bool.eq_false_iff.mpr h
        simp only [stableInsert, h2, Bool.false_eq_true, if_false]
        exact (List.Perm.cons b ih).trans (List.Perm.swap a b l)

theorem stableSortBy_perm {α : Type} (le : α → α → Bool) (l : List α) :
    List.Perm (stableSortBy le l) l := by
  induction l with
  | nil => exact List.Perm.refl _
  | cons a l ih => exact (stableInsert_perm le a _).trans (List.Perm.cons a ih)

theorem mem_stableSortBy {α : Type} {le : α → α → Bool} {a : α} {l : List α} :
    a ∈ stableSortBy le l ↔ a ∈ l :=
  (stableSortBy_perm le l).mem_iff

theorem length_stableSortBy {α : Type} (le : α → α → Bool) (l : List α) :
    (stableSortBy le l).length = l.length :=
  (stableSortBy_perm le l).length_eq

theorem pairwise_stableInsert {α : Type} {le : α → α → Bool}
    (htrans : ∀ x y z, le x y = true → le y z = true → le x z = true)
    (htot : ∀ x y, le x y = false → le y x = true)
    (a : α) (l : List α) (h : l.Pairwise (fun x y => le x y = true)) :
    (stableInsert le a l).Pairwise (fun x y => le x y = true) := by
  induction l with
  | nil => simp [stableInsert]
  | cons b l ih =>
      rcases List.pairwise_cons.mp h with ⟨hb, hl⟩
      by_cases hab : le a b = true
      · simp only [stableInsert, hab, if_true]
        refine List.pairwise_cons.mpr ⟨?_, h⟩
        intro x hx
        rcases List.mem_cons.mp hx with rfl | hx
        · exact hab
        · exact htrans a b x hab (hb x hx)
      · have hab2 : le a b = false := Bool.eq_false_iff.mpr hab
        simp only [stableInsert, hab2, Bool.false_eq_true, if_false]
        refine List.pairwise_cons.mpr ⟨?_, ih hl⟩
        intro x hx
        rcases List.mem_cons.mp ((stableInsert_perm le a l).mem_iff.mp hx) with rfl | hx
        · exact htot _ b hab2
        · exact hb x hx

theorem pairwise_stableSortBy {α : Type} {le : α → α → Bool}
    (htrans : ∀ x y z, le x y = true → le y z = true → le x z = true)
    (htot : ∀ x y, le x y = false → le y x = true)
    (l : List α) :
    (stableSortBy le l).Pairwise (fun x y => le x y = true) := by
  induction l with
  | nil => simp [stableSortBy]
  | cons a l ih => exact pairwise_stableInsert htrans htot a _ ih

theorem dictGet?_dictInsert {α : Type} (d : List (String × α)) (k k' : String) (v : α) :
    dictGet? (dictInsert d k v) k' = if k = k' then some v else dictGet? d k' := by
  induction d with
  | nil =>
      by_cases hkk : k = k' <;> simp [dictInsert, dictGet?, hkk]
  | cons kv rest ih =>
      obtain ⟨k0, v0⟩ := kv
      by_cases h0 : k0 = k
      · subst h0
        by_cases hkk : k0 = k' <;> simp [dictInsert, dictGet?, hkk]
      · by_cases h1 : k0 = k'
        · subst h1
          have h2 : ¬ k = k0 := fun hh => h0 hh.symm
          simp [dictInsert, dictGet?, h0, h2]
        · simp [dictInsert, dictGet?, h0, h1, ih]

-- ===========================================================================
-- Lemmas about the second-generation engine
-- ===========================================================================

namespace V2

theorem matchLE_trans : ∀ x y z : Match,
    matchLE x y = true → matchLE y z = true → matchLE x z = true := by
  intro x y z hxy hyz
  simp only [matchLE, Bool.or_eq_true, Bool.and_eq_true, decide_eq_true_eq] at *
  rcases hxy with h1 | ⟨h1, h1p⟩
  · rcases hyz with h2 | ⟨h2, h2p⟩
    · exact Or.inl (h2.trans h1)
    · exact Or.inl (h2 ▸ h1)
  · rcases hyz with h2 | ⟨h2, h2p⟩
    · exact Or.inl (h1 ▸ h2)
    · exact Or.inr ⟨h1.trans h2, h2p.trans h1p⟩

theorem matchLE_total : ∀ x y : Match,
    matchLE x y = false → matchLE y x = true := by
  intro x y h
  simp only [matchLE, Bool.or_eq_false_iff, Bool.and_eq_false_iff,
    decide_eq_false_iff_not, Bool.or_eq_true, Bool.and_eq_true, decide_eq_true_eq] at *
  rcases h with ⟨h1, h2⟩
  rcases lt_or_eq_of_le (not_lt.mp h1) with hlt | heq
  · exact Or.inl hlt
  · rcases h2 with h2 | h2
    · exact absurd heq h2
    · exact Or.inr ⟨heq.symm, le_of_not_le h2⟩

theorem exceptBind_ok {ε α β : Type} (a : α) (g : α → Except ε β) :
    (Except.ok a >>= g) = g a := rfl

theorem exceptBind_error {ε α β : Type} (e : ε) (g : α → Except ε β) :
    ((Except.error e : Except ε α) >>= g) = Except.error e := rfl

theorem exceptPure {ε α : Type} (a : α) : (pure a : Except ε α) = Except.ok a := rfl

theorem scoreLoop_ok_eq (rules : List (String × RuleDef)) (f : FieldDict) (t : ℚ)
    (ms : List Match) (h : scoreLoop rules f t = Except.ok ms) :
    ms = (rawMatches rules f).filter (fun m => decide (t ≤ m.confidence)) := by
  induction rules generalizing ms with
  | nil =>
      simp only [scoreLoop, Except.ok.injEq] at h
      simp [rawMatches, ← h]
  | cons r rest ih =>
      obtain ⟨name, rd⟩ := r
      simp only [scoreLoop] at h
      cases hd : rd.detector f with
      | error e =>
          rw [hd, exceptBind_error] at h
          exact absurd h (by simp)
      | ok c =>
          rw [hd, exceptBind_ok] at h
          cases hrest : scoreLoop rest f t with
          | error e =>
              rw [hrest, exceptBind_error] at h
              exact absurd h (by simp)
          | ok ms2 =>
              rw [hrest, exceptBind_ok] at h
              have hms2 := ih ms2 hrest
              simp only [rawMatches, List.map_cons, List.filter_cons]
              have hconf : confOf f (name, rd) = c := by simp [confOf, hd]
              by_cases hc : t ≤ c
              · rw [if_pos hc, exceptPure] at h
                cases h
                simp [hconf, decide_eq_true hc, rawMatches] at *
                exact hms2
              · rw [if_neg hc, exceptPure] at h
                cases h
                simp [hconf, decide_eq_false hc, rawMatches] at *
                exact hms2

theorem scoreLoop_error_of (rules : List (String × RuleDef)) (f : FieldDict) (t : ℚ)
    (h : ∃ r ∈ rules, ∃ e, r.2.detector f = Except.error e) :
    ∃ e, scoreLoop rules f t = Except.error e := by
  induction rules with
  | nil => simp at h
  | cons r rest ih =>
      obtain ⟨name, rd⟩ := r
      rcases h with ⟨r0, hr0, e0, he0⟩
      rcases List.mem_cons.mp hr0 with rfl | hr0
      · refine ⟨e0, ?_⟩
        simp only [scoreLoop]
        simp only at he0
        rw [he0, exceptBind_error]
      · cases hd : rd.detector f with
        | error e =>
            refine ⟨e, ?_⟩
            simp only [scoreLoop]
            rw [hd, exceptBind_error]
        | ok c =>
            rcases ih ⟨r0, hr0, e0, he0⟩ with ⟨e, he⟩
            refine ⟨e, ?_⟩
            simp only [scoreLoop]
            rw [hd, exceptBind_ok, he, exceptBind_error]

theorem scoreLoop_ok_of_all (rules : List (String × RuleDef)) (f : FieldDict) (t : ℚ)
    (h : ∀ r ∈ rules, ∃ c, r.2.detector f = Except.ok c) :
    ∃ ms, scoreLoop rules f t = Except.ok ms := by
  induction rules with
  | nil => exact ⟨[], rfl⟩
  | cons r rest ih =>
      obtain ⟨name, rd⟩ := r
      rcases h (name, rd) (List.mem_cons_self _ _) with ⟨c, hc⟩
      rcases ih (fun r0 hr0 => h r0 (List.mem_cons_of_mem _ hr0)) with ⟨ms2, hms2⟩
      simp only at hc
      by_cases ht : t ≤ c
      · refine ⟨⟨name, c, rd.priority⟩ :: ms2, ?_⟩
        simp only [scoreLoop]
        rw [hc, exceptBind_ok, hms2, exceptBind_ok, if_pos ht, exceptPure]
      · refine ⟨ms2, ?_⟩
        simp only [scoreLoop]
        rw [hc, exceptBind_ok, hms2, exceptBind_ok, if_neg ht, exceptPure]

theorem scoresBelow_spec (rules : List (String × RuleDef)) (f : FieldDict) (t : ℚ)
    (h : scoresBelow rules f t = true) :
    ∀ r ∈ rules, ∃ c, r.2.detector f = Except.ok c ∧ c < t := by
  intro r hr
  have hx := List.all_eq_true.mp h r hr
  cases hd : r.2.detector f with
  | ok c =>
      rw [hd] at hx
      exact ⟨c, rfl, of_decide_eq_true hx⟩
  | error e =>
      rw [hd] at hx
      cases hx

theorem analyze_eq_of_scoreLoop (p : Protocol) (f : FieldDict) (ctx : String) (t : ℚ)
    (maxS : Int) (ms : List Match)
    (hf : List.isEmpty f = false)
    (hs : scoreLoop (allRules p) f t = Except.ok ms) :
    analyze p f ctx t maxS =
      (if maxS = 1 then
        match stableSortBy matchLE ms with
        | best :: _ =>
            Except.ok (AnalyzeResult.single best.semantic_type best.confidence ctx
              ⟨stableSortBy matchLE ms, t⟩)
        | [] => Except.ok (AnalyzeResult.basic Option.none 0)
      else
        Except.ok (AnalyzeResult.multi
          ((pyTake maxS (stableSortBy matchLE ms)).map (fun m => m.semantic_type))
          ((pyTake maxS (stableSortBy matchLE ms)).map (fun m => m.confidence)) ctx
          ⟨stableSortBy matchLE ms, t⟩)) := by
  simp only [analyze, hf, Bool.false_eq_true, if_false]
  rw [hs, exceptBind_ok]
  by_cases hm : maxS = 1
  · rw [if_pos hm, if_pos hm]
    cases stableSortBy matchLE ms with
    | nil => rfl
    | cons best rest => rfl
  · rw [if_neg hm, if_neg hm]
    rfl

theorem analyze_error_of_scoreLoop (p : Protocol) (f : FieldDict) (ctx : String) (t : ℚ)
    (maxS : Int) (e : String)
    (hf : List.isEmpty f = false)
    (hs : scoreLoop (allRules p) f t = Except.error e) :
    analyze p f ctx t maxS = Except.error e := by
  simp only [analyze, hf, Bool.false_eq_true, if_false]
  rw [hs, exceptBind_error]

theorem analyze_ok_metadata (p : Protocol) (f : FieldDict) (ctx : String) (t : ℚ)
    (maxS : Int) (r : AnalyzeResult) (md : Metadata)
    (hf : List.isEmpty f = false)
    (h : analyze p f ctx t maxS = Except.ok r)
    (hmd : metadataOf r = some md) :
    ∃ ms, scoreLoop (allRules p) f t = Except.ok ms ∧
      md.all_matches = stableSortBy matchLE ms ∧ md.threshold = t := by
  cases hs : scoreLoop (allRules p) f t with
  | error e =>
      rw [analyze_error_of_scoreLoop p f ctx t maxS e hf hs] at h
      cases h
  | ok ms =>
      refine ⟨ms, rfl, ?_⟩
      rw [analyze_eq_of_scoreLoop p f ctx t maxS ms hf hs] at h
      by_cases hm : maxS = 1
      · rw [if_pos hm] at h
        cases hsort : stableSortBy matchLE ms with
        | nil =>
            rw [hsort] at h
            cases h
            cases hmd
        | cons best rest =>
            rw [hsort] at h
            cases h
            cases hmd
            simp [hsort]
      · rw [if_neg hm] at h
        cases h
        cases hmd
        simp

theorem detectIdentifier_bounds (f : FieldDict) :
    0 ≤ detectIdentifier f ∧ detectIdentifier f ≤ 100 := by
  simp only [detectIdentifier]
  split_ifs <;> omega

theorem detectTemporal_bounds (f : FieldDict) :
    0 ≤ detectTemporal f ∧ detectTemporal f ≤ 100 := by
  simp only [detectTemporal]
  cases hv : fValue f <;> dsimp only <;> (try split_ifs) <;> omega

theorem detectEmail_bounds (f : FieldDict) :
    0 ≤ detectEmail f ∧ detectEmail f ≤ 100 := by
  simp only [detectEmail]
  split_ifs <;> omega

theorem detectUrl_bounds (f : FieldDict) :
    0 ≤ detectUrl f ∧ detectUrl f ≤ 100 := by
  simp only [detectUrl]
  split_ifs <;> omega

theorem detectPhone_bounds (f : FieldDict) :
    0 ≤ detectPhone f ∧ detectPhone f ≤ 100 := by
  simp only [detectPhone]
  split_ifs <;> omega

theorem detectCurrency_bounds (f : FieldDict) :
    0 ≤ detectCurrency f ∧ detectCurrency f ≤ 100 := by
  simp only [detectCurrency]
  cases hv : numVal (fValue f) <;> dsimp only <;> (try split_ifs) <;> omega

theorem detectPercentage_bounds (f : FieldDict) :
    0 ≤ detectPercentage f ∧ detectPercentage f ≤ 100 := by
  simp only [detectPercentage]
  cases hv : numVal (fValue f) <;> dsimp only <;> (try split_ifs) <;> omega

theorem detectStatus_bounds (f : FieldDict) :
    0 ≤ detectStatus f ∧ detectStatus f ≤ 100 := by
  simp only [detectStatus]
  split_ifs <;> omega

theorem detectBoolean_bounds (f : FieldDict) :
    0 ≤ detectBoolean f ∧ detectBoolean f ≤ 100 := by
  simp only [detectBoolean]
  cases hv : fValue f <;> dsimp only <;> (try split_ifs) <;> omega

theorem detectNumeric_bounds (f : FieldDict) :
    0 ≤ detectNumeric f ∧ detectNumeric f ≤ 100 := by
  simp only [detectNumeric]
  cases hv : numVal (fValue f) <;> dsimp only <;> (try split_ifs) <;> omega

theorem detectLocation_bounds (f : FieldDict) :
    0 ≤ detectLocation f ∧ detectLocation f ≤ 100 := by
  simp only [detectLocation]
  split_ifs <;> omega

theorem detectCancellation_bounds (f : FieldDict) :
    0 ≤ detectCancellation f ∧ detectCancellation f ≤ 100 := by
  simp only [detectCancellation]
  split_ifs <;> omega

theorem detectDescription_bounds (f : FieldDict) :
    0 ≤ detectDescription f ∧ detectDescription f ≤ 100 := by
  simp only [detectDescription]
  cases hv : fValue f <;> dsimp only <;> (try split_ifs) <;> omega

theorem detectKeyword_bounds (f : FieldDict) :
    0 ≤ detectKeyword f ∧ detectKeyword f ≤ 100 := by
  simp only [detectKeyword]
  split_ifs <;> omega

theorem intDet_bounds {d : FieldDict → Int} (hd : ∀ g, 0 ≤ d g ∧ d g ≤ 100) (f : FieldDict) :
    ∃ c : ℚ, intDet d f = Except.ok c ∧ 0 ≤ c ∧ c ≤ 100 := by
  refine ⟨((d f : Int) : ℚ), rfl, ?_, ?_⟩
  · exact_mod_cast (hd f).1
  · exact_mod_cast (hd f).2

theorem builtin_bounds : ∀ r ∈ semanticRules, ∀ f : FieldDict,
    ∃ c : ℚ, r.2.detector f = Except.ok c ∧ 0 ≤ c ∧ c ≤ 100 := by
  intro r hr f
  simp only [semanticRules, List.mem_cons, List.not_mem_nil, or_false] at hr
  rcases hr with rfl | rfl | rfl | rfl | rfl | rfl | rfl | rfl | rfl | rfl | rfl | rfl | rfl | rfl
  · exact intDet_bounds detectIdentifier_bounds f
  · exact intDet_bounds detectTemporal_bounds f
  · exact intDet_bounds detectEmail_bounds f
  · exact intDet_bounds detectUrl_bounds f
  · exact intDet_bounds detectPhone_bounds f
  · exact intDet_bounds detectCurrency_bounds f
  · exact intDet_bounds detectPercentage_bounds f
  · exact intDet_bounds detectStatus_bounds f
  · exact intDet_bounds detectBoolean_bounds f
  · exact intDet_bounds detectNumeric_bounds f
  · exact intDet_bounds detectLocation_bounds f
  · exact intDet_bounds detectCancellation_bounds f
  · exact intDet_bounds detectDescription_bounds f
  · exact intDet_bounds detectKeyword_bounds f

theorem pyTake_subset {α : Type} (n : Int) (l : List α) : ∀ a ∈ pyTake n l, a ∈ l := by
  intro a ha
  unfold pyTake at ha
  split_ifs at ha <;> exact List.take_subset _ _ ha

theorem anyRaises_spec (rules : List (String × RuleDef)) (f : FieldDict)
    (h : anyRaises rules f = true) :
    ∃ r ∈ rules, ∃ e, r.2.detector f = Except.error e := by
  rcases List.any_eq_true.mp h with ⟨r, hr, hx⟩
  cases hd : r.2.detector f with
  | error e => exact ⟨r, hr, e, hd⟩
  | ok c =>
      rw [hd] at hx
      cases hx

theorem filterLenMono {α : Type} (l : List α) (p q : α → Bool)
    (h : ∀ a, p a = true → q a = true) :
    (l.filter p).length ≤ (l.filter q).length := by
  induction l with
  | nil => simp
  | cons a l ih =>
      by_cases hp : p a = true
      · rw [List.filter_cons_of_pos hp, List.filter_cons_of_pos (h a hp)]
        simpa using ih
      · rw [List.filter_cons_of_neg hp]
        by_cases hq : q a = true
        · rw [List.filter_cons_of_pos hq]
          exact ih.trans (Nat.le_succ _)
        · rw [List.filter_cons_of_neg hq]
          exact ih

theorem analyze_keptMatches (p : Protocol) (f : FieldDict) (ctx : String) (t : ℚ)
    (maxS : Int) (r : AnalyzeResult) (ms : List Match)
    (hf : List.isEmpty f = false)
    (hs : scoreLoop (allRules p) f t = Except.ok ms)
    (h : analyze p f ctx t maxS = Except.ok r) :
    (keptMatches r).length = ms.length ∧ ∀ m, m ∈ keptMatches r ↔ m ∈ ms := by
  rw [analyze_eq_of_scoreLoop p f ctx t maxS ms hf hs] at h
  by_cases hm1 : maxS = 1
  · rw [if_pos hm1] at h
    cases hsort : stableSortBy matchLE ms with
    | nil =>
        rw [hsort] at h
        cases h
        have hlen : ms.length = 0 := by
          rw [← length_stableSortBy matchLE ms, hsort]
          rfl
        have hnil : ms = [] := List.length_eq_zero.mp hlen
        subst hnil
        exact ⟨rfl, fun m => by simp [keptMatches, metadataOf]⟩
    | cons best rest =>
        rw [hsort] at h
        cases h
        refine ⟨?_, ?_⟩
        · rw [keptMatches, metadataOf, ← hsort, length_stableSortBy]
        · intro m
          rw [keptMatches, metadataOf, ← hsort, mem_stableSortBy]
  · rw [if_neg hm1] at h
    cases h
    refine ⟨?_, ?_⟩
    · rw [keptMatches, metadataOf, length_stableSortBy]
    · intro m
      rw [keptMatches, metadataOf, mem_stableSortBy]

theorem analyze_noMatch (p : Protocol) (f : FieldDict) (ctx : String) (t : ℚ)
    (hb : scoresBelow (allRules p) f t = true) :
    analyze p f ctx t 1 = Except.ok (AnalyzeResult.basic Option.none 0) := by
  by_cases hf : List.isEmpty f = true
  · simp [analyze, hf]
  · have hf2 : List.isEmpty f = false := Bool.eq_false_iff.mpr hf
    have hall := scoresBelow_spec _ _ _ hb
    rcases scoreLoop_ok_of_all (allRules p) f t
      (fun r hr => (hall r hr).imp (fun c hc => hc.1)) with ⟨ms, hms⟩
    have hempty : ms = [] := by
      rw [scoreLoop_ok_eq _ _ _ _ hms]
      apply List.filter_eq_nil_iff.mpr
      intro m hm
      rcases List.mem_map.mp hm with ⟨r0, hr0, rfl⟩
      rcases hall r0 hr0 with ⟨c, hok, hlt⟩
      simp only [confOf, hok, decide_eq_true_eq]
      exact not_le.mpr hlt
    subst hempty
    rw [analyze_eq_of_scoreLoop p f ctx t 1 [] hf2 hms, if_pos rfl]
    rfl

-- ===========================================================================
-- Claim theorems
-- ===========================================================================

/-- C9: calling analyze with an empty (falsy) field dict immediately
returns the two-key result with semantic type none and confidence zero,
for every protocol state (even one whose registered detectors would all
raise, which shows no detector is invoked), every context, threshold and
match bound; that result omits the context and metadata keys that populated
single and multi results carry. -/
theorem claim_C9_empty_field :
    ∀ (p : Protocol) (ctx : String) (t : ℚ) (maxS : Int),
      analyze p [] ctx t maxS = Except.ok (AnalyzeResult.basic Option.none 0) ∧
      contextOf (AnalyzeResult.basic Option.none 0) = Option.none ∧
      metadataOf (AnalyzeResult.basic Option.none 0) = Option.none := by
  intro p ctx t maxS
  exact ⟨rfl, rfl, rfl⟩

/-- C5: when every registered detector succeeds on the field with a
confidence strictly below the threshold (no rule matches at or above it),
analyze returns the no-match result with semantic type none and confidence
zero rather than an error, and render, which analyzes at the default
threshold of fifty, returns the default directive with component Text and
empty props. -/
theorem claim_C5_no_match :
    (∀ (p : Protocol) (f : FieldDict) (ctx : String) (t : ℚ),
      scoresBelow (allRules p) f t = true →
      analyze p f ctx t 1 = Except.ok (AnalyzeResult.basic Option.none 0)) ∧
    (∀ (p : Protocol) (f : FieldDict) (ctx : String),
      scoresBelow (allRules p) f 50 = true →
      render p f ctx = Except.ok defaultDirective) := by
  constructor
  · intro p f ctx t hb
    exact analyze_noMatch p f ctx t hb
  · intro p f ctx hb
    simp only [render, analyze_noMatch p f ctx 50 hb, exceptBind_ok, semanticTypeOf,
      exceptPure]

/-- Witness for C5 at the concrete blank field over the builtin registry:
no builtin rule reaches fifty there, analyze answers none at confidence
zero and render answers the default Text directive. -/
theorem claim_C5_witness :
    analyze initProtocol blankField "display" 50 1 =
      Except.ok (AnalyzeResult.basic Option.none 0) ∧
    render initProtocol blankField "display" = Except.ok defaultDirective := by
  constructor
  · exact claim_C5_no_match.1 initProtocol blankField "display" 50 (by decide)
  · exact claim_C5_no_match.2 initProtocol blankField "display" (by decide)

/-- C2 counterexample: the claim asserts that a raising detector is
treated as confidence zero and the exception is never propagated, but on a
registry extended with an always-raising custom rule, analyze on a
non-empty field returns the error itself, not a result. -/
theorem claim_C2_counterexample :
    analyze (register_rule initProtocol "_bad" raisingDet 50) blankField "display" 50 1 =
      Except.error "boom" := by
  decide

/-- C2 amended: analyze performs no isolation of detector failures: as
soon as any registered detector raises on a non-empty field, the whole
analyze call propagates an exception to its caller and yields no result;
the scores of the other rules are discarded with it. -/
theorem claim_C2_amended :
    ∀ (p : Protocol) (f : FieldDict) (ctx : String) (t : ℚ) (maxS : Int),
      List.isEmpty f = false →
      anyRaises (allRules p) f = true →
      ∃ e, analyze p f ctx t maxS = Except.error e := by
  intro p f ctx t maxS hf hr
  rcases scoreLoop_error_of (allRules p) f t (anyRaises_spec _ _ hr) with ⟨e, he⟩
  exact ⟨e, analyze_error_of_scoreLoop p f ctx t maxS e hf he⟩

/-- Witness for the amended C2 at the concrete raising registry. -/
theorem claim_C2_witness :
    ∃ e, analyze (register_rule initProtocol "_bad" raisingDet 50) blankField "display" 50 1 =
      Except.error e := by
  exact claim_C2_amended (register_rule initProtocol "_bad" raisingDet 50) blankField
    "display" 50 1 (by decide) (by decide)

/-- C6 counterexample: the claim asserts that register_rule rejects an
empty rule key with a validation error, but registering under the empty
key succeeds silently and stores the rule under that key. -/
theorem claim_C6_counterexample :
    (register_rule initProtocol "" zeroDet 50).custom_rules = [("", ⟨50, zeroDet⟩)] ∧
    dictGet? (register_rule initProtocol "" zeroDet 50).custom_rules "" =
      some ⟨50, zeroDet⟩ := by
  exact ⟨rfl, rfl⟩

/-- C6 amended: register_rule performs no validation at all: every key,
the empty string included, is accepted by a plain dict assignment that
overwrites any existing entry for the key (last write wins), never errors,
leaves every other custom entry and the builtin rule and render registries
untouched.  A Python None key is likewise accepted by the source; keys are
embedded as strings, where the empty key stands for the degenerate
cases. -/
theorem claim_C6_amended :
    ∀ (p : Protocol) (name : String) (d : Detector) (prio : Int),
      dictGet? (register_rule p name d prio).custom_rules name = some ⟨prio, d⟩ ∧
      (∀ k, k ≠ name →
        dictGet? (register_rule p name d prio).custom_rules k = dictGet? p.custom_rules k) ∧
      (register_rule p name d prio).semantic_rules = p.semantic_rules ∧
      (register_rule p name d prio).render_map = p.render_map := by
  intro p name d prio
  refine ⟨?_, ?_, rfl, rfl⟩
  · show dictGet? (dictInsert p.custom_rules name ⟨prio, d⟩) name = some ⟨prio, d⟩
    rw [dictGet?_dictInsert]
    simp
  · intro k hk
    show dictGet? (dictInsert p.custom_rules name ⟨prio, d⟩) k = dictGet? p.custom_rules k
    rw [dictGet?_dictInsert, if_neg (fun h => hk h.symm)]

/-- Witness for the amended C6: the empty key registers and is readable,
and an unrelated key is unaffected. -/
theorem claim_C6_witness :
    dictGet? (register_rule initProtocol "" zeroDet 50).custom_rules "" =
      some ⟨50, zeroDet⟩ ∧
    dictGet? (register_rule initProtocol "" zeroDet 50).custom_rules "other" =
      Option.none := by
  have h := claim_C6_amended initProtocol "" zeroDet 50
  refine ⟨h.1, ?_⟩
  rw [h.2.1 "other" (by decide)]
  rfl

/-- C3 counterexample: the claim asserts every reported confidence is
clamped into the interval from zero to one hundred even for custom rules,
but a custom detector reporting one hundred fifty wins unclamped: the
returned winning confidence and the metadata entry both carry one hundred
fifty, which exceeds one hundred. -/
theorem claim_C3_counterexample :
    analyze (register_rule initProtocol "_big" overDet 50) blankField "display" 50 1 =
      Except.ok (AnalyzeResult.single "_big" 150 "display" ⟨[⟨"_big", 150, 50⟩], 50⟩) ∧
    (150 : ℚ) ∈ allConfidences
      (AnalyzeResult.single "_big" 150 "display" ⟨[⟨"_big", 150, 50⟩], 50⟩) ∧
    ¬ ((150 : ℚ) ≤ 100) := by
  refine ⟨by decide, by decide, by decide⟩

/-- C3 amended: analyze never clamps: each reported confidence is exactly
the value its detector returned.  All builtin detectors are internally
capped (at ninety five or lower) and never negative, so over the builtin
registry alone every confidence reported by analyze lies between zero and
one hundred; a custom detector returning a value outside that interval is
reported unchanged. -/
theorem claim_C3_amended :
    ∀ (f : FieldDict) (ctx : String) (t : ℚ) (maxS : Int) (r : AnalyzeResult),
      analyze initProtocol f ctx t maxS = Except.ok r →
      ∀ c ∈ allConfidences r, 0 ≤ c ∧ c ≤ 100 := by
  intro f ctx t maxS r h c hc
  by_cases hf : List.isEmpty f = true
  · rw [show analyze initProtocol f ctx t maxS =
        Except.ok (AnalyzeResult.basic Option.none 0) by simp [analyze, hf]] at h
    cases h
    simp only [allConfidences, List.mem_singleton] at hc
    subst hc
    norm_num
  · have hf2 : List.isEmpty f = false := Bool.eq_false_iff.mpr hf
    cases hs : scoreLoop (allRules initProtocol) f t with
    | error e =>
        rw [analyze_error_of_scoreLoop initProtocol f ctx t maxS e hf2 hs] at h
        cases h
    | ok ms =>
        have hms := scoreLoop_ok_eq _ _ _ _ hs
        have hmem : ∀ m ∈ ms, 0 ≤ m.confidence ∧ m.confidence ≤ 100 := by
          intro m hm
          rw [hms] at hm
          have hm2 := List.mem_of_mem_filter hm
          rcases List.mem_map.mp hm2 with ⟨r0, hr0, rfl⟩
          rcases builtin_bounds r0 hr0 f with ⟨c0, hok, h0, h1⟩
          constructor <;> simp [confOf, hok, h0, h1]
        have hsorted : ∀ m ∈ stableSortBy matchLE ms, 0 ≤ m.confidence ∧ m.confidence ≤ 100 :=
          fun m hm => hmem m (mem_stableSortBy.mp hm)
        rw [analyze_eq_of_scoreLoop initProtocol f ctx t maxS ms hf2 hs] at h
        by_cases hm1 : maxS = 1
        · rw [if_pos hm1] at h
          cases hsort : stableSortBy matchLE ms with
          | nil =>
              rw [hsort] at h
              cases h
              simp only [allConfidences, List.mem_singleton] at hc
              subst hc
              norm_num
          | cons best rest =>
              rw [hsort] at h
              cases h
              simp only [allConfidences, List.mem_cons, List.mem_map] at hc
              rcases hc with rfl | ⟨m, hm, rfl⟩
              · exact hsorted best (hsort ▸ List.mem_cons_self _ _)
              · exact hsorted m (hsort ▸ List.mem_cons.mpr hm)
        · rw [if_neg hm1] at h
          cases h
          simp only [allConfidences, List.mem_append, List.mem_map] at hc
          rcases hc with ⟨m, hm, rfl⟩ | ⟨m, hm, rfl⟩
          · exact hsorted m (pyTake_subset maxS _ m hm)
          · exact hsorted m hm

/-- Witness for the amended C3 at the concrete email field: the reported
winning confidence ninety five lies inside the interval. -/
theorem claim_C3_witness : 0 ≤ (95 : ℚ) ∧ (95 : ℚ) ≤ 100 := by
  exact claim_C3_amended emailField "display" 50 1
    (AnalyzeResult.single "_is_email" 95 "display"
      ⟨[⟨"_is_email", 95, 90⟩, ⟨"_is_location", 70, 70⟩], 50⟩)
    (by decide) 95 (by decide)

/-- C4 counterexample: the claim asserts the metadata all-matches list is
the entire unfiltered score list with one entry per registered rule, but
on the email field the builtin registry holds fourteen rules and the
identifier rule scores ten, yet the metadata list has only the two entries
at or above the threshold and no identifier entry at all. -/
theorem claim_C4_counterexample :
    analyze initProtocol emailField "display" 50 1 =
      Except.ok (AnalyzeResult.single "_is_email" 95 "display"
        ⟨[⟨"_is_email", 95, 90⟩, ⟨"_is_location", 70, 70⟩], 50⟩) ∧
    (allRules initProtocol).length = 14 ∧
    (⟨"_is_identifier", 10, 50⟩ : Match) ∈ rawMatches (allRules initProtocol) emailField ∧
    ¬ ((⟨"_is_identifier", 10, 50⟩ : Match) ∈
        ([⟨"_is_email", 95, 90⟩, ⟨"_is_location", 70, 70⟩] : List Match)) := by
  refine ⟨by decide, by decide, by decide, by decide⟩

/-- C4 amended: whenever the scoring loop succeeds and at least one rule
clears the threshold, the analyze result (for any match bound) carries a
metadata block whose all-matches list is exactly the list of matches at or
above the threshold, sorted, together with the threshold used; rules whose
confidence fell strictly below the threshold are omitted from it. -/
theorem claim_C4_amended :
    ∀ (p : Protocol) (f : FieldDict) (ctx : String) (t : ℚ) (maxS : Int) (ms : List Match),
      List.isEmpty f = false →
      scoreLoop (allRules p) f t = Except.ok ms →
      ms ≠ [] →
      ∃ r, analyze p f ctx t maxS = Except.ok r ∧
        metadataOf r = some ⟨stableSortBy matchLE ms, t⟩ ∧
        ms = (rawMatches (allRules p) f).filter (fun m => decide (t ≤ m.confidence)) := by
  intro p f ctx t maxS ms hf hs hne
  have hfilter := scoreLoop_ok_eq _ _ _ _ hs
  rw [analyze_eq_of_scoreLoop p f ctx t maxS ms hf hs]
  by_cases hm1 : maxS = 1
  · rw [if_pos hm1]
    have hsne : stableSortBy matchLE ms ≠ [] := by
      intro hnil
      apply hne
      apply List.length_eq_zero.mp
      rw [← length_stableSortBy matchLE ms, hnil]
      rfl
    obtain ⟨best, rest, hsort⟩ := List.exists_cons_of_ne_nil hsne
    rw [hsort]
    refine ⟨_, rfl, ?_, hfilter⟩
    rw [metadataOf, ← hsort]
  · rw [if_neg hm1]
    exact ⟨_, rfl, rfl, hfilter⟩

/-- Witness for the amended C4 at the concrete email field: the metadata
records the two kept matches (sorted) and the threshold fifty, the email
and location scores, and omits the twelve below-threshold rules. -/
theorem claim_C4_witness :
    ∃ r, analyze initProtocol emailField "display" 50 1 = Except.ok r ∧
      metadataOf r = some ⟨stableSortBy matchLE
        [⟨"_is_email", 95, 90⟩, ⟨"_is_location", 70, 70⟩], 50⟩ ∧
      [⟨"_is_email", 95, 90⟩, ⟨"_is_location", 70, 70⟩] =
        (rawMatches (allRules initProtocol) emailField).filter
          (fun m => decide ((50 : ℚ) ≤ m.confidence)) := by
  exact claim_C4_amended initProtocol emailField "display" 50 1
    [⟨"_is_email", 95, 90⟩, ⟨"_is_location", 70, 70⟩] (by decide) (by decide) (by decide)

/-- C1: for every field and registered rule set, the match list analyze
produces is ranked by confidence descending with equal confidences broken
by priority descending; and on a registry holding a priority-ninety email
rule and a priority-fifty identifier rule whose detectors report the same
confidence at or above the threshold, the email rule is the returned
winner. -/
theorem claim_C1_ranking :
    (∀ (p : Protocol) (f : FieldDict) (ctx : String) (t : ℚ) (maxS : Int)
        (r : AnalyzeResult) (md : Metadata),
      List.isEmpty f = false →
      analyze p f ctx t maxS = Except.ok r →
      metadataOf r = some md →
      md.all_matches.Pairwise rankGE) ∧
    (∀ (dI dE : Detector) (f : FieldDict) (t c : ℚ),
      List.isEmpty f = false →
      dI f = Except.ok c → dE f = Except.ok c → t ≤ c →
      analyze (twoRuleProtocol dI dE) f "display" t 1 =
        Except.ok (AnalyzeResult.single "_is_email" c "display"
          ⟨[⟨"_is_email", c, 90⟩, ⟨"_is_identifier", c, 50⟩], t⟩)) := by
  constructor
  · intro p f ctx t maxS r md hf h hmd
    rcases analyze_ok_metadata p f ctx t maxS r md hf h hmd with ⟨ms, _, hall, _⟩
    rw [hall]
    have hp := pairwise_stableSortBy matchLE_trans matchLE_total ms
    refine hp.imp ?_
    intro a b hab
    simp only [matchLE, Bool.or_eq_true, Bool.and_eq_true, decide_eq_true_eq] at hab
    exact hab
  · intro dI dE f t c hf hdI hdE htc
    have hs : scoreLoop (allRules (twoRuleProtocol dI dE)) f t =
        Except.ok [⟨"_is_identifier", c, 50⟩, ⟨"_is_email", c, 90⟩] := by
      show scoreLoop [("_is_identifier", ⟨50, dI⟩), ("_is_email", ⟨90, dE⟩)] f t = _
      simp only [scoreLoop]
      rw [hdI, exceptBind_ok, hdE, exceptBind_ok]
      simp [htc, exceptPure, exceptBind_ok]
    rw [analyze_eq_of_scoreLoop _ f "display" t 1 _ hf hs, if_pos rfl]
    have hsort : stableSortBy matchLE [⟨"_is_identifier", c, 50⟩, ⟨"_is_email", c, 90⟩] =
        [(⟨"_is_email", c, 90⟩ : Match), ⟨"_is_identifier", c, 50⟩] := by
      show stableInsert matchLE ⟨"_is_identifier", c, 50⟩
        (stableInsert matchLE ⟨"_is_email", c, 90⟩ []) = _
      simp [stableInsert, matchLE]
    rw [hsort]

/-- Witness for C1: the metadata list of the email field analysis is
ranked, and on the two-rule registry with both detectors at ninety the
email rule wins the tie. -/
theorem claim_C1_witness :
    ([⟨"_is_email", 95, 90⟩, ⟨"_is_location", 70, 70⟩] : List Match).Pairwise rankGE ∧
    analyze (twoRuleProtocol ninetyDet ninetyDet) blankField "display" 50 1 =
      Except.ok (AnalyzeResult.single "_is_email" 90 "display"
        ⟨[⟨"_is_email", 90, 90⟩, ⟨"_is_identifier", 90, 50⟩], 50⟩) := by
  constructor
  · exact claim_C1_ranking.1 initProtocol emailField "display" 50 1
      (AnalyzeResult.single "_is_email" 95 "display"
        ⟨[⟨"_is_email", 95, 90⟩, ⟨"_is_location", 70, 70⟩], 50⟩)
      ⟨[⟨"_is_email", 95, 90⟩, ⟨"_is_location", 70, 70⟩], 50⟩
      (by decide) (by decide) (by decide)
  · exact claim_C1_ranking.2 ninetyDet ninetyDet blankField 50 90
      (by decide) rfl rfl (by norm_num)

/-- C7: for a fixed field and rule set and thresholds t1 at most t2, the
match list analyze keeps at t2 is no longer than the one it keeps at t1,
and a match is kept at t1 exactly when it is a scored rule whose
confidence is at or above t1. -/
theorem claim_C7_threshold_monotone :
    ∀ (p : Protocol) (f : FieldDict) (ctx : String) (t1 t2 : ℚ) (maxS : Int)
      (r1 r2 : AnalyzeResult),
      List.isEmpty f = false → t1 ≤ t2 →
      analyze p f ctx t1 maxS = Except.ok r1 →
      analyze p f ctx t2 maxS = Except.ok r2 →
      (keptMatches r2).length ≤ (keptMatches r1).length ∧
      (∀ m : Match, m ∈ keptMatches r1 ↔
        (m ∈ rawMatches (allRules p) f ∧ t1 ≤ m.confidence)) := by
  intro p f ctx t1 t2 maxS r1 r2 hf hle h1 h2
  cases hs1 : scoreLoop (allRules p) f t1 with
  | error e =>
      rw [analyze_error_of_scoreLoop p f ctx t1 maxS e hf hs1] at h1
      cases h1
  | ok ms1 =>
      cases hs2 : scoreLoop (allRules p) f t2 with
      | error e =>
          rw [analyze_error_of_scoreLoop p f ctx t2 maxS e hf hs2] at h2
          cases h2
      | ok ms2 =>
          have hk1 := analyze_keptMatches p f ctx t1 maxS r1 ms1 hf hs1 h1
          have hk2 := analyze_keptMatches p f ctx t2 maxS r2 ms2 hf hs2 h2
          have he1 := scoreLoop_ok_eq _ _ _ _ hs1
          have he2 := scoreLoop_ok_eq _ _ _ _ hs2
          constructor
          · rw [hk1.1, hk2.1, he1, he2]
            apply filterLenMono
            intro m hm
            simp only [decide_eq_true_eq] at *
            exact le_trans hle hm
          · intro m
            rw [hk1.2 m, he1, List.mem_filter]
            simp only [decide_eq_true_eq]

/-- Witness for C7: on the email field, raising the threshold from fifty
to eighty shrinks the kept list from two entries to one, and the location
match is kept at fifty exactly because it is a scored rule at seventy. -/
theorem claim_C7_witness :
    (keptMatches (AnalyzeResult.single "_is_email" 95 "display"
        ⟨[⟨"_is_email", 95, 90⟩], 80⟩)).length ≤
      (keptMatches (AnalyzeResult.single "_is_email" 95 "display"
        ⟨[⟨"_is_email", 95, 90⟩, ⟨"_is_location", 70, 70⟩], 50⟩)).length ∧
    ((⟨"_is_location", 70, 70⟩ : Match) ∈ keptMatches
        (AnalyzeResult.single "_is_email" 95 "display"
          ⟨[⟨"_is_email", 95, 90⟩, ⟨"_is_location", 70, 70⟩], 50⟩) ↔
      ((⟨"_is_location", 70, 70⟩ : Match) ∈ rawMatches (allRules initProtocol) emailField ∧
        (50 : ℚ) ≤ (⟨"_is_location", 70, 70⟩ : Match).confidence)) := by
  have h := claim_C7_threshold_monotone initProtocol emailField "display" 50 80 1
    (AnalyzeResult.single "_is_email" 95 "display"
      ⟨[⟨"_is_email", 95, 90⟩, ⟨"_is_location", 70, 70⟩], 50⟩)
    (AnalyzeResult.single "_is_email" 95 "display" ⟨[⟨"_is_email", 95, 90⟩], 80⟩)
    (by decide) (by norm_num) (by decide) (by decide)
  exact ⟨h.1, h.2 ⟨"_is_location", 70, 70⟩⟩

end V2

set_option maxRecDepth 40000

/-- C8: the first-generation engine, whose analyze takes exactly the field
shape of the claim (a name and a declared type), wins on the is_cancelled
boolean field with the cancellation semantics.  That engine expresses
confidence on the zero-to-one scale, so the claimed bounds read as ninety
percent and the fifty percent threshold: the winning confidence is
ninety five hundredths, at least ninety hundredths and above fifty
hundredths, and in the list context the render lookup yields the danger
badge instruction. -/
theorem claim_C8_is_cancelled :
    (V1.analyze "is_cancelled" "boolean" Value.none "list").semantic_type = "cancellation" ∧
    (V1.analyze "is_cancelled" "boolean" Value.none "list").confidence = pydec 95 ∧
    pydec 90 ≤ (V1.analyze "is_cancelled" "boolean" Value.none "list").confidence ∧
    pydec 50 ≤ (V1.analyze "is_cancelled" "boolean" Value.none "list").confidence ∧
    (V1.analyze "is_cancelled" "boolean" Value.none "list").render_instruction =
      "badge:danger" := by
  refine ⟨by decide, by decide, by decide, by decide, by decide⟩

/-- C10: batch_analyze returns a mapping keyed by field name whose entry
under a name is the result of the independent analyze call on the last
item of the input sequence bearing that name (later duplicates win), and
no entry exists for names no item bears. -/
theorem claim_C10_batch_analyze :
    ∀ (items : List V1.BatchItem) (ctx n : String),
      dictGet? (V1.batch_analyze items ctx) n =
        (items.reverse.find? (fun it => V1.itemName it == n)).map
          (fun it => V1.itemAnalyze it ctx) := by
  intro items ctx n
  induction items using List.reverseRecOn with
  | nil => rfl
  | append_singleton xs x ih =>
      have hb : V1.batch_analyze (xs ++ [x]) ctx =
          dictInsert (V1.batch_analyze xs ctx) (V1.itemName x) (V1.itemAnalyze x ctx) := by
        simp [V1.batch_analyze, List.foldl_append]
      rw [hb, dictGet?_dictInsert, List.reverse_append]
      by_cases hx : V1.itemName x = n
      · rw [if_pos hx]
        have hbeq : (V1.itemName x == n) = true := beq_iff_eq.mpr hx
        simp [List.find?, hbeq]
      · rw [if_neg hx]
        have hbeq : (V1.itemName x == n) = false := beq_eq_false_iff_ne.mpr hx
        simp [List.find?, hbeq, ih]
